import Mathlib

/-!
Shallow embedding of the testract archive core (src/reader.rs, src/archive.rs,
src/bsa/{mod,types,morrowind,oblivion}.rs, src/ba2/{mod,types,fallout4}.rs, src/lib.rs).

Archive files are modelled as `List Nat` of byte values; machine integers are `Nat`
(the parsers below only ever build values below 2^32 from 4 little-endian bytes, so no
explicit truncation is needed).  Fallible Rust functions return an `Outcome`: a normal
return, an error return (`Result::Err`), or a panic (`unimplemented!`, out-of-bounds
indexing/slicing, arithmetic underflow).  The zlib and LZ4 codecs are external crates
(flate2, lz4); they enter the embedding as function parameters of type
`List Nat → Option (List Nat)` (`none` = corrupt stream), which is all the embedded
code observes of them.
-/

namespace Testract

/-- Result of running a fallible Rust function: `ok` (normal return), `err`
(`Result::Err` surfaced to the caller), or `panic` (a crash: `unimplemented!`,
index out of bounds, subtraction underflow). -/
inductive Outcome (α : Type) where
  | ok (value : α)
  | err (msg : String)
  | panic (msg : String)
deriving DecidableEq

/-- True exactly when the outcome is an error *returned* to the caller (not a panic). -/
def Outcome.isError {α : Type} : Outcome α → Bool
  | .err _ => true
  | _ => false

/-- nom's `le_u32`: little-endian u32 from the first 4 bytes of the buffer.  All call
sites pass exactly-sized buffers, so the `getD` default is never exercised on the
Rust-reachable domain. -/
def leU32 (bs : List Nat) : Nat :=
  bs.getD 0 0 + 256 * bs.getD 1 0 + 65536 * bs.getD 2 0 + 16777216 * bs.getD 3 0

/-- nom's `le_u16`: little-endian u16 from the first 2 bytes of the buffer. -/
def leU16 (bs : List Nat) : Nat :=
  bs.getD 0 0 + 256 * bs.getD 1 0

/-- Embeds `latin1_to_string` (reader.rs): 1:1 byte-to-codepoint decoding. -/
def latin1ToString (bs : List Nat) : String :=
  String.mk (bs.map Char.ofNat)

/-- Embeds `Read::read_exact` of `n` bytes at absolute position `pos` of the backing file:
fails (an `io::Error` the callers surface with `?`/`.context`) when fewer than `n`
bytes remain. -/
def readExact (data : List Nat) (pos n : Nat) : Option (List Nat) :=
  if pos + n ≤ data.length then some ((data.drop pos).take n) else none

/-- Embeds `TESReader::parse_bzstring` (reader.rs): via `read_string_with_len_prefix`, reads a
1-byte length `n`, then `n` raw bytes, and converts `buffer[0 .. buffer.len() - 1]` —
the final byte is stripped unconditionally, with no check that it is NUL.  For `n = 0`
the index computation `buffer.len() - 1` underflows and the slice panics.  Returns the
string together with the cursor position after the read. -/
def parse_bzstring (data : List Nat) (pos : Nat) : Outcome (String × Nat) :=
  match readExact data pos 1 with
  | none => .err "failed to fill whole buffer"
  | some lb =>
    let length := lb.getD 0 0
    match readExact data (pos + 1) length with
    | none => .err "failed to fill whole buffer"
    | some buffer =>
      if length = 0 then .panic "attempt to subtract with overflow"
      else .ok (latin1ToString (buffer.take (length - 1)), pos + 1 + length)

/-- Embeds `str::split_terminator('\0')` on a byte block: like splitting on every NUL, except
that one trailing empty segment (present exactly when the block is empty or ends in
NUL) is dropped.  This is the plain split; the terminator adjustment is applied in
`parse_bstring_block`. -/
def splitOnZero : List Nat → List (List Nat)
  | [] => [[]]
  | b :: rest =>
    if b = 0 then [] :: splitOnZero rest
    else
      match splitOnZero rest with
      | [] => [[b]]
      | s :: ss => (b :: s) :: ss

/-- Embeds `TESReader::parse_bstring_block` (reader.rs) applied to an already-read block:
decode latin-1 and split on NUL terminators, preserving order. -/
def parse_bstring_block (block : List Nat) : List String :=
  let segs := splitOnZero block
  let segs := if segs.getLast? = some [] then segs.dropLast else segs
  segs.map latin1ToString

/-- Embeds `bitflags!` ArchiveFlags (bsa/types.rs), kept as the raw u32 bit pattern. -/
abbrev ArchiveFlags := Nat

def INCLUDE_DIR_NAMES : ArchiveFlags := 0x1
def INCLUDE_FILE_NAMES : ArchiveFlags := 0x2
def COMPRESSED_ARCHIVE : ArchiveFlags := 0x4
def EMBED_FILE_NAMES : ArchiveFlags := 0x100

/-- Union of every bit named in the `bitflags!` ArchiveFlags block (through
UNKNOWN_OBLIVION_FLAG = 1 << 10); `from_bits` accepts exactly subsets of this. -/
def ARCHIVE_FLAGS_ALL : Nat := 0x7FF

/-- Union of every bit named in the `bitflags!` FileFlags block (through MISC = 1 << 8). -/
def FILE_FLAGS_ALL : Nat := 0x1FF

/-- Embeds `bitflags` `contains`: all bits of `flag` are present in `flags`. -/
def flagsContains (flags flag : Nat) : Bool :=
  flags &&& flag == flag

/-- Embeds `bitflags` `from_bits`: `Some` exactly when no undefined bit is set. -/
def flags_from_bits (all bits : Nat) : Option Nat :=
  if bits &&& all == bits then some bits else none

/-- Embeds `Version` (bsa/types.rs). -/
inductive Version where
  | MORROWIND
  | OBLIVION
  | SKYRIM
  | SKYRIMSE
deriving DecidableEq

/-- Embeds `version_parser` (bsa/types.rs): `switch!(le_u32, 0x67 | 0x68 | 0x69)`; any other
value is a nom parse error. -/
def version_parse (v : Nat) : Option Version :=
  if v = 0x67 then some Version.OBLIVION
  else if v = 0x68 then some Version.SKYRIM
  else if v = 0x69 then some Version.SKYRIMSE
  else none

/-- Embeds `Compression` (lib.rs). -/
inductive Compression where
  | None
  | Zlib
  | Lz4
deriving DecidableEq

/-- Embeds `BSAHeader` (bsa/types.rs), the normalized header. -/
structure BSAHeader where
  version : Version
  archive_flags : ArchiveFlags
  file_flags : Nat
  file_count : Nat
deriving DecidableEq

/-- Embeds `BSAFile` (bsa/types.rs), one entry's metadata. -/
structure BSAFile where
  has_name : Bool
  compression : Compression
  size : Nat
  offset : Nat
deriving DecidableEq

/-- Embeds `FileMap` (archive.rs / ba2/types.rs): the `HashMap` is modelled as an
insertion-ordered association list; `fmInsert` replaces the value of an existing key
and appends a fresh key, so the key set matches the `HashMap`'s. -/
abbrev FileMap (α : Type) := List (String × α)

/-- Embeds `HashMap::insert`. -/
def fmInsert {α : Type} (m : FileMap α) (k : String) (v : α) : FileMap α :=
  if m.any (fun p => p.1 == k) then
    m.map (fun p => if p.1 == k then (k, v) else p)
  else m ++ [(k, v)]

/-- Folding `HashMap::insert` over an insertion sequence, as the index builders do. -/
def fmFromList {α : Type} (l : List (String × α)) : FileMap α :=
  l.foldl (fun m p => fmInsert m p.1 p.2) []

/-- Embeds `HashMap::keys`, in the model's insertion order. -/
def fmKeys {α : Type} (m : FileMap α) : List String :=
  m.map Prod.fst

/-- Embeds `BSAArchive`, that is `Archive<BSAHeader, BSAFile>`: path, normalized header, entry map. -/
structure BSAArchive where
  path : String
  header : BSAHeader
  file_hashmap : FileMap BSAFile
deriving DecidableEq

/-! ### Morrowind-style BSA (src/bsa/morrowind.rs) -/

/-- Embeds `MWBSAHeader` (morrowind.rs). -/
structure MWBSAHeader where
  file_count : Nat
  hash_offset : Nat
deriving DecidableEq

/-- Embeds `MWFileRecord` (morrowind.rs): the stored offset is relative to the raw-data section. -/
structure MWFileRecord where
  size : Nat
  offset : Nat
deriving DecidableEq

/-- Embeds `SERIALIZED_HEADER_LEN` (morrowind.rs): 8 bytes after the file magic. -/
def MW_SERIALIZED_HEADER_LEN : Nat := 8

/-- Embeds `mw_bsa_header_parser` on its exact 8-byte buffer: `hash_offset` u32, then
`file_count` u32. -/
def mw_bsa_header_parse (bs : List Nat) : MWBSAHeader :=
  { hash_offset := leU32 bs, file_count := leU32 (bs.drop 4) }

/-- Embeds `parse_file_records` (morrowind.rs): `many0!` of 8-byte records — consumes the
buffer in 8-byte chunks (`size` u32, `offset` u32) until fewer than 8 bytes remain. -/
def mw_parse_file_records : List Nat → List MWFileRecord
  | b0 :: b1 :: b2 :: b3 :: b4 :: b5 :: b6 :: b7 :: rest =>
    { size := leU32 [b0, b1, b2, b3], offset := leU32 [b4, b5, b6, b7] }
      :: mw_parse_file_records rest
  | _ => []

/-- Embeds `create_file_hashmap` (morrowind.rs): zip records with names positionally; every
inserted offset is the record's stored offset plus
`hash_offset + 8 * file_count + SERIALIZED_HEADER_LEN`. -/
def mw_create_file_hashmap (header : MWBSAHeader) (file_records : List MWFileRecord)
    (file_names : List String) : FileMap BSAFile :=
  let file_record_iter := file_records.zip file_names
  let file_data_offset := header.hash_offset + 8 * header.file_count + MW_SERIALIZED_HEADER_LEN
  fmFromList (file_record_iter.map (fun p =>
    (p.2, { has_name := false, compression := Compression.None,
            size := p.1.size, offset := file_data_offset + p.1.offset })))

/-- Embeds `morrowind::parse_bsa`, starting just after the 4 magic bytes (position 4): header
(8 bytes), `file_count` 8-byte records, a skipped 4·count name-offset block, then the
name block of `hash_offset - 12 * file_count` bytes (a usize subtraction that underflows
— panics — when `hash_offset < 12 * file_count`). -/
def mw_parse_bsa (path : String) (data : List Nat) : Outcome BSAArchive :=
  match readExact data 4 MW_SERIALIZED_HEADER_LEN with
  | none => .err "Cannot parse Morrowind style BSA header"
  | some hb =>
    let header := mw_bsa_header_parse hb
    match readExact data 12 (8 * header.file_count) with
    | none => .err "Failed to parse Morrowind file records"
    | some rb =>
      let file_records := mw_parse_file_records rb
      if header.hash_offset < 12 * header.file_count then
        .panic "attempt to subtract with overflow"
      else
        let name_block_size := header.hash_offset - 12 * header.file_count
        match readExact data (12 + 12 * header.file_count) name_block_size with
        | none => .err "Failed to read file name block"
        | some nb =>
          let file_names := parse_bstring_block nb
          .ok { path,
                header := { version := Version.MORROWIND, archive_flags := 0,
                            file_flags := 0, file_count := header.file_count },
                file_hashmap := mw_create_file_hashmap header file_records file_names }

/-- Modelled from the spec: absolute byte position of the start of the raw-data section
per the documented Morrowind layout — 4 magic bytes + 8-byte header + 8·count file
records + 4·count name offsets + name block (`hash_offset - 12·count` bytes) + 8·count
hash block.  (The source computes `hash_offset + 8 * file_count + 8` instead; this
definition exists to compare the two.) -/
def mw_raw_data_start_spec (h : MWBSAHeader) : Nat :=
  4 + 8 + 8 * h.file_count + 4 * h.file_count
    + (h.hash_offset - 12 * h.file_count) + 8 * h.file_count

/-! ### Oblivion-style BSA (src/bsa/oblivion.rs) -/

/-- Embeds `OBBSAHeader` (oblivion.rs). -/
structure OBBSAHeader where
  version : Version
  archive_flags : ArchiveFlags
  folder_count : Nat
  file_count : Nat
  total_file_name_length : Nat
  file_flags : Nat
deriving DecidableEq

/-- Embeds `ob_bsa_header_parser` on its exact 32-byte buffer (after the magic): version u32 at
0 (only 0x67/0x68/0x69 accepted), archive flags u32 at 8 (`from_bits` rejects unknown
bits), folder count at 12, file count at 16, total file-name length at 24, file flags
u16 at 28 (`from_bits` checked). -/
def ob_bsa_header_parse (bs : List Nat) : Option OBBSAHeader :=
  match version_parse (leU32 bs) with
  | none => none
  | some version =>
    match flags_from_bits ARCHIVE_FLAGS_ALL (leU32 (bs.drop 8)) with
    | none => none
    | some archive_flags =>
      match flags_from_bits FILE_FLAGS_ALL (leU16 (bs.drop 28)) with
      | none => none
      | some file_flags =>
        some { version, archive_flags,
               folder_count := leU32 (bs.drop 12),
               file_count := leU32 (bs.drop 16),
               total_file_name_length := leU32 (bs.drop 24),
               file_flags }

/-- Embeds `OBFolderMetadata` (oblivion.rs): only the per-folder file count is kept. -/
structure OBFolderMetadata where
  count : Nat
deriving DecidableEq

/-- Embeds `ob_folder_metadata_parser`: `many0!` of 16-byte folder records (8-byte hash,
count u32 at 8, offset u32 at 12). -/
def ob_folder_metadata_parse : List Nat → List OBFolderMetadata
  | _ :: _ :: _ :: _ :: _ :: _ :: _ :: _ ::
      c0 :: c1 :: c2 :: c3 :: _ :: _ :: _ :: _ :: rest =>
    { count := leU32 [c0, c1, c2, c3] } :: ob_folder_metadata_parse rest
  | _ => []

/-- Embeds `sse_folder_metadata_parser`: `many0!` of 24-byte folder records
(hash 8, count u32 at 8, unknown 4, offset 4, unknown 4). -/
def sse_folder_metadata_parse : List Nat → List OBFolderMetadata
  | _ :: _ :: _ :: _ :: _ :: _ :: _ :: _ ::
      c0 :: c1 :: c2 :: c3 :: _ :: _ :: _ :: _ ::
      _ :: _ :: _ :: _ :: _ :: _ :: _ :: _ :: rest =>
    { count := leU32 [c0, c1, c2, c3] } :: sse_folder_metadata_parse rest
  | _ => []

/-- Embeds `OBFileRecord` (oblivion.rs). -/
structure OBFileRecord where
  uses_default_compression : Bool
  size : Nat
  offset : Nat
deriving DecidableEq

/-- One 16-byte file record of `ob_file_records_parser`: 8-byte hash, raw `size` u32 at
8, `offset` u32 at 12; `uses_default_compression = !(((size & 0x4000_0000) >> 30) == 1)`
and the stored size keeps only the low 30 bits (`size & 0x3fff_ffff`). -/
def ob_file_record_parse (bs : List Nat) : OBFileRecord :=
  let size := leU32 (bs.drop 8)
  { uses_default_compression := !(((size &&& 0x40000000) >>> 30) == 1),
    size := size &&& 0x3fffffff,
    offset := leU32 (bs.drop 12) }

/-- Embeds `ob_file_records_parser` body: chunks the exact buffer into 16-byte records
(`many1!`'s at-least-one requirement is enforced at the call site). -/
def ob_file_records_parse : List Nat → List OBFileRecord
  | b0 :: b1 :: b2 :: b3 :: b4 :: b5 :: b6 :: b7 ::
      b8 :: b9 :: b10 :: b11 :: b12 :: b13 :: b14 :: b15 :: rest =>
    ob_file_record_parse
        [b0, b1, b2, b3, b4, b5, b6, b7, b8, b9, b10, b11, b12, b13, b14, b15]
      :: ob_file_records_parse rest
  | _ => []

/-- Embeds `OBFolderRecord` (oblivion.rs): a folder name plus its contiguous file records. -/
structure OBFolderRecord where
  name : String
  file_records : List OBFileRecord
deriving DecidableEq

/-- The per-folder loop of `read_file_record_blocks`: for each folder-metadata entry in
order, read a bzstring folder name and then `16 * count` bytes of file records
(`many1!` errors on a zero-record folder).  Threads the cursor position. -/
def ob_read_folders (data : List Nat) :
    Nat → List OBFolderMetadata → Outcome (List OBFolderRecord × Nat)
  | pos, [] => .ok ([], pos)
  | pos, metadata :: rest =>
    match parse_bzstring data pos with
    | .err _ => .err "Failed parsing a folder name"
    | .panic m => .panic m
    | .ok (name, pos') =>
      match readExact data pos' (16 * metadata.count) with
      | none => .err "Failed parsing file records"
      | some rb =>
        if metadata.count = 0 then .err "Failed parsing file records"
        else
          match ob_read_folders data (pos' + 16 * metadata.count) rest with
          | .ok (folders, pend) =>
            .ok ({ name, file_records := ob_file_records_parse rb } :: folders, pend)
          | .err m => .err m
          | .panic m => .panic m

/-- Embeds `read_file_record_blocks` (oblivion.rs): read the folder-metadata block (24-byte
records for Skyrim SE, 16-byte otherwise), then each folder's name and records. -/
def read_file_record_blocks (data : List Nat) (pos : Nat) (num_folders : Nat)
    (header : OBBSAHeader) : Outcome (List OBFolderRecord × Nat) :=
  let metaLen := if header.version = Version.SKYRIMSE then 24 else 16
  match readExact data pos (metaLen * num_folders) with
  | none => .err "Failed parsing the folder metadata block"
  | some mb =>
    let folder_metadata :=
      if header.version = Version.SKYRIMSE then sse_folder_metadata_parse mb
      else ob_folder_metadata_parse mb
    ob_read_folders data (pos + metaLen * num_folders) folder_metadata

/-- Embeds `Path::new(dir).join(file)` for unix-style string paths: an absolute `file`
replaces the whole path, an empty `dir` contributes nothing, otherwise the two are
joined with a single separator. -/
def pathJoin (dir file : String) : String :=
  if file.startsWith "/" then file
  else if dir = "" then file
  else if dir.endsWith "/" then dir ++ file
  else dir ++ "/" ++ file

/-- The `(folder_name, file_record)` sequence of `create_file_hashmap` (oblivion.rs):
`folders.into_iter().flat_map(|folder| iter::repeat(folder.name).zip(folder.file_records))`
— the infinite repetition zipped against the finite record list pairs the folder's name
with each of its records in order. -/
def ob_folder_file_pairs (folders : List OBFolderRecord) : List (String × OBFileRecord) :=
  folders.flatMap (fun folder => folder.file_records.map (fun r => (folder.name, r)))

/-- The per-entry body of `create_file_hashmap` (oblivion.rs, lines 136-168): `has_name`
is hard-coded false for `Version::OBLIVION`; `is_compressed` starts from the
COMPRESSED_ARCHIVE container flag and is inverted when `uses_default_compression` is
false; the codec is Zlib for Oblivion/Skyrim, LZ4 for Skyrim SE. -/
def ob_entry_of (header : OBBSAHeader) (file_record : OBFileRecord) : BSAFile :=
  let has_name := flagsContains header.archive_flags EMBED_FILE_NAMES
    && !(header.version == Version.OBLIVION)
  let is_compressed := flagsContains header.archive_flags COMPRESSED_ARCHIVE
  let is_compressed :=
    if !file_record.uses_default_compression then !is_compressed else is_compressed
  let compression :=
    if is_compressed then
      match header.version with
      | Version.OBLIVION | Version.SKYRIM => Compression.Zlib
      | Version.SKYRIMSE => Compression.Lz4
      | _ => Compression.None
    else Compression.None
  { has_name, compression, size := file_record.size, offset := file_record.offset }

/-- The ordered insertion sequence of `create_file_hashmap` (oblivion.rs):
`file_names.zip(folder_file_iter)`, each pair inserted under the key
`Path::new(folder_name).join(file_name)`. -/
def ob_insert_seq (header : OBBSAHeader) (folders : List OBFolderRecord)
    (file_names : List String) : List (String × BSAFile) :=
  (file_names.zip (ob_folder_file_pairs folders)).map (fun p =>
    (pathJoin p.2.1 p.1, ob_entry_of header p.2.2))

/-- Embeds `create_file_hashmap` (oblivion.rs): fold the insertion sequence into the map. -/
def ob_create_file_hashmap (header : OBBSAHeader) (folders : List OBFolderRecord)
    (file_names : List String) : FileMap BSAFile :=
  fmFromList (ob_insert_seq header folders file_names)

/-- Embeds `oblivion::parse_bsa`, starting just after the 4 magic bytes: 32-byte header,
folder blocks, then — gated on INCLUDE_FILE_NAMES, otherwise `unimplemented!` — the
file-name block of `total_file_name_length` bytes. -/
def ob_parse_bsa (path : String) (data : List Nat) : Outcome BSAArchive :=
  match readExact data 4 32 with
  | none => .err "Cannot parse Oblivion style BSA header"
  | some hb =>
    match ob_bsa_header_parse hb with
    | none => .err "Cannot parse Oblivion style BSA header"
    | some header =>
      match read_file_record_blocks data 36 header.folder_count header with
      | .err _ => .err "Failed to read folder records"
      | .panic m => .panic m
      | .ok (folders, pos) =>
        if flagsContains header.archive_flags INCLUDE_FILE_NAMES then
          match readExact data pos header.total_file_name_length with
          | none => .err "Failed to read file name block"
          | some nb =>
            .ok { path,
                  header := { version := header.version,
                              archive_flags := header.archive_flags,
                              file_flags := header.file_flags,
                              file_count := header.file_count },
                  file_hashmap :=
                    ob_create_file_hashmap header folders (parse_bstring_block nb) }
        else
          .panic "Parsing BSA files without the INCLUDE_FILE_NAMES archive flag is currently unsupported"

/-- Embeds `BSA::from_file` (bsa/mod.rs): read the 4 magic bytes, decode them latin-1, and
dispatch — "BSA\0" to the Oblivion-style decoder, "\x00\x01\x00\x00" to the
Morrowind-style decoder; anything else hits `unimplemented!` (a panic, not an error
return). -/
def bsa_from_file (path : String) (data : List Nat) : Outcome BSAArchive :=
  if data.length < 4 then .err "Unable to read BSA file identifier"
  else
    let magic_str := latin1ToString (data.take 4)
    if magic_str = "BSA\x00" then ob_parse_bsa path data
    else if magic_str = "\x00\x01\x00\x00" then mw_parse_bsa path data
    else .panic "Unknown file id parsed"

/-! ### BSA extraction (src/bsa/mod.rs)

bsa/mod.rs predates the `Compression` refactor visible in bsa/types.rs: its
`extract_via_file` reads a boolean field `file.compressed` (and picks the codec from
the header version itself), so the entry shape it consumes is embedded as its own
structure. -/

/-- Embeds `CompressionType` (bsa/mod.rs). -/
inductive CompressionType where
  | NONE
  | ZLIB
  | LZ4
deriving DecidableEq

/-- The entry fields `BSA::extract_via_file` (bsa/mod.rs) actually reads:
`offset`, `size`, and the per-entry `compressed` boolean. -/
structure BSAModFile where
  compressed : Bool
  size : Nat
  offset : Nat
deriving DecidableEq

/-- Embeds `decompress_buffer` (bsa/mod.rs): `buffer.split_at(4)` — a panic when the buffer
holds fewer than 4 bytes — then the remainder is handed to the selected codec (the
4-byte little-endian length is used only as a capacity hint for the output buffer).
`zlibDecode`/`lz4Decode` stand for the external flate2/lz4 streams; `none` models a
corrupt stream, surfaced as an error return. -/
def decompress_buffer (zlibDecode lz4Decode : List Nat → Option (List Nat))
    (buffer : List Nat) (compression_type : CompressionType) : Outcome (List Nat) :=
  if buffer.length < 4 then .panic "mid > len"
  else
    let data := buffer.drop 4
    match compression_type with
    | CompressionType.ZLIB =>
      match zlibDecode data with
      | some out => .ok out
      | none => .err "Unable to decompress ZLIB data"
    | CompressionType.LZ4 =>
      match lz4Decode data with
      | some out => .ok out
      | none => .err "Unable to decompress LZ4 data"
    | CompressionType.NONE => .ok data

/-- Embeds `BSA::extract_via_file` (bsa/mod.rs): seek to `file.offset`, read exactly
`file.size` bytes, recompute `has_name` from the header (hard-coded false for
`Version::OBLIVION`), pick the codec from the header version, then: compressed entries
go through `decompress_buffer` (after dropping a length-prefixed embedded name when
`has_name`); uncompressed entries are returned as read (again minus the embedded-name
prefix when `has_name`).  Indexing `file_block[0]` on an empty block and slicing past
the end are panics. -/
def extract_via_file (zlibDecode lz4Decode : List Nat → Option (List Nat))
    (header : BSAHeader) (data : List Nat) (file : BSAModFile) : Outcome (List Nat) :=
  match readExact data file.offset file.size with
  | none => .err "failed to fill whole buffer"
  | some file_block =>
    let has_name := flagsContains header.archive_flags EMBED_FILE_NAMES
      && !(header.version == Version.OBLIVION)
    let compression_type :=
      match header.version with
      | Version.OBLIVION | Version.SKYRIM => CompressionType.ZLIB
      | Version.SKYRIMSE => CompressionType.LZ4
      | Version.MORROWIND => CompressionType.NONE
    if file.compressed then
      if has_name then
        match file_block.head? with
        | none => .panic "index out of bounds"
        | some b0 =>
          let compressed_slice_offset := b0 + 1
          if compressed_slice_offset ≤ file_block.length then
            decompress_buffer zlibDecode lz4Decode
              (file_block.drop compressed_slice_offset) compression_type
          else .panic "slice index starts at out-of-range position"
      else decompress_buffer zlibDecode lz4Decode file_block compression_type
    else
      if has_name then
        match file_block.head? with
        | none => .panic "index out of bounds"
        | some b0 =>
          let bstring_len := b0 + 1
          if bstring_len ≤ file_block.length then .ok (file_block.drop bstring_len)
          else .panic "slice index starts at out-of-range position"
      else .ok file_block

/-! ### BA2 (src/ba2/types.rs, src/ba2/fallout4.rs, src/ba2/mod.rs) and lib.rs codecs -/

/-- Embeds `BA2TextureHeader` (ba2/types.rs). -/
structure BA2TextureHeader where
  num_chunks : Nat
  chunk_header_size : Nat
  height : Nat
  width : Nat
  num_mipmaps : Nat
  dxgi_format : Nat
deriving DecidableEq

/-- Embeds `BA2FileChunk` (ba2/types.rs): `compressed_size = 0` means the chunk is stored
uncompressed. -/
structure BA2FileChunk where
  content_offset : Nat
  compressed_size : Nat
  uncompressed_size : Nat
deriving DecidableEq

/-- Embeds `BA2File` (ba2/types.rs): `header = some _` marks a chunked texture entry. -/
structure BA2File where
  header : Option BA2TextureHeader
  chunks : List BA2FileChunk
deriving DecidableEq

/-- The hashmap-building loop of `parse_ba2` (ba2/fallout4.rs, lines 61-66):
`name_vec.into_iter().zip(files)`, inserted in order. -/
def ba2_create_file_hashmap (name_vec : List String) (files : List BA2File) :
    FileMap BA2File :=
  fmFromList (name_vec.zip files)

/-- Embeds `Compression::decompress_buffer` (lib.rs): identical in structure to the bsa/mod.rs
free function — `split_at(4)` (panic under 4 bytes), 4-byte little-endian length used
only as a capacity hint, remainder through the codec selected by `self`. -/
def compression_decompress_buffer (zlibDecode lz4Decode : List Nat → Option (List Nat))
    (self : Compression) (buffer : List Nat) : Outcome (List Nat) :=
  if buffer.length < 4 then .panic "mid > len"
  else
    let data := buffer.drop 4
    match self with
    | Compression.Zlib =>
      match zlibDecode data with
      | some out => .ok out
      | none => .err "Unable to decompress ZLIB data"
    | Compression.Lz4 =>
      match lz4Decode data with
      | some out => .ok out
      | none => .err "Unable to decompress LZ4 data"
    | Compression.None => .ok data

/-- Serialization of a `u64` in little-endian bytes, as `WriteBytesExt::write_u64::<LittleEndian>`
produces (ba2/mod.rs). -/
def le64Bytes (n : Nat) : List Nat :=
  [n % 256, n / 256 % 256, n / 65536 % 256, n / 16777216 % 256,
   n / 4294967296 % 256, n / 1099511627776 % 256,
   n / 281474976710656 % 256, n / 72057594037927936 % 256]

/-- Embeds `BA2File::extract` (ba2/mod.rs): a chunked texture entry (`header = some _`) hits
`unimplemented!` — a panic.  A general entry reads `chunks[0]` (panic when empty),
seeks to `content_offset`, allocates `buffer_len + 4` zero bytes, reads the stored
block into `file_block[4..]`, then `file_block.write_u64::<LittleEndian>(uncompressed_size)`
— `Vec`'s `Write` impl *appends* 8 bytes at the end (it does not fill the 4-byte
prefix, which stays zero).  Compressed entries hand the whole assembled buffer to
`Compression::Zlib.decompress_buffer`; uncompressed entries return it as-is. -/
def ba2_extract (zlibDecode lz4Decode : List Nat → Option (List Nat))
    (data : List Nat) (self : BA2File) : Outcome (List Nat) :=
  match self.header with
  | some _ => .panic "Extraction is currently unimplemented for BA2 texture files"
  | none =>
    match self.chunks.head? with
    | none => .panic "index out of bounds"
    | some general_file =>
      let buffer_len :=
        if general_file.compressed_size = 0 then general_file.uncompressed_size
        else general_file.compressed_size
      match readExact data general_file.content_offset buffer_len with
      | none => .err "failed to fill whole buffer"
      | some payload =>
        let file_block :=
          [0, 0, 0, 0] ++ payload ++ le64Bytes general_file.uncompressed_size
        if general_file.compressed_size ≠ 0 then
          compression_decompress_buffer zlibDecode lz4Decode Compression.Zlib file_block
        else .ok file_block

/-! ### Archive and extension filtering (src/archive.rs) -/

/-- Embeds `ExtensionSet` (archive.rs). -/
inductive ExtensionSet where
  | None
  | List (exts : List String)
  | All
deriving DecidableEq

/-- Embeds `ExtensionSet::is_match` (archive.rs). -/
def ExtensionSet.is_match : ExtensionSet → String → Bool
  | ExtensionSet.None, _ => false
  | ExtensionSet.All, _ => true
  | ExtensionSet.List ext_list, file_extension => ext_list.contains file_extension

/-- The final component of a unix-style string path (`Path::file_name`, for ordinary
relative paths). -/
def pathFileName (k : String) : List Char :=
  (k.toList.splitOn '/').getLastD []

/-- Embeds `Path::extension().and_then(OsStr::to_str)` for unix-style string keys: the part of
the final component after its last dot; `none` when the component has no dot or its
only dot is leading (hidden files).  Faithful for the ordinary relative keys the index
builders produce (it does not reproduce `Path`'s special `.`/`..` components). -/
def pathExtension (k : String) : Option String :=
  let f := pathFileName k
  let rev := f.reverse
  if rev.contains '.' then
    let extRev := rev.takeWhile (fun c => c ≠ '.')
    let stemRev := rev.drop (extRev.length + 1)
    if stemRev.isEmpty then none else some (String.mk extRev.reverse)
  else none

/-- The loop body of `Archive::get_by_extension` (archive.rs, lines 54-65): when the
set is not `All`, a key *with* an extension is skipped unless `is_match`; a key whose
`extension()` returns `None` falls through the `if let` and is pushed unconditionally. -/
def gbe_step {α : Type} (extension_set : ExtensionSet) (file_names : List String)
    (p : String × α) : List String :=
  if extension_set ≠ ExtensionSet.All then
    match pathExtension p.1 with
    | some extension =>
      if !(extension_set.is_match extension) then file_names
      else file_names ++ [p.1]
    | none => file_names ++ [p.1]
  else file_names ++ [p.1]

/-- Embeds `Archive::get_by_extension` (archive.rs): `ExtensionSet::None` short-circuits to
the empty list before touching the map; otherwise every key runs through `gbe_step`. -/
def get_by_extension {α : Type} (m : FileMap α) (extension_set : ExtensionSet) :
    List String :=
  if extension_set = ExtensionSet.None then []
  else m.foldl (gbe_step extension_set) []

/-! ### Helper lemmas -/

theorem readExact_of_le {data : List Nat} {pos n : Nat} (h : pos + n ≤ data.length) :
    readExact data pos n = some ((data.drop pos).take n) := by
  unfold readExact
  rw [if_pos h]

theorem length_readExact_block {data : List Nat} {pos n : Nat}
    (h : pos + n ≤ data.length) : ((data.drop pos).take n).length = n := by
  simp only [List.length_take, List.length_drop]
  omega

theorem shift_and_bit30 (s : Nat) :
    (((s &&& 0x40000000) >>> 30) == 1) = s.testBit 30 := by
  have h : s &&& 0x40000000 = (s.testBit 30).toNat * 2 ^ 30 := by
    have h2 := Nat.and_two_pow s 30
    norm_num at h2 ⊢
    exact h2
  rw [h, Nat.shiftRight_eq_div_pow, Nat.mul_div_cancel _ (by positivity)]
  cases s.testBit 30 <;> rfl

theorem map_zip_eq_zipWith {α β γ : Type} (f : α → β → γ) :
    ∀ (l₁ : List α) (l₂ : List β),
      (l₁.zip l₂).map (fun p => f p.1 p.2) = List.zipWith f l₁ l₂
  | [], _ => rfl
  | _ :: _, [] => rfl
  | a :: l₁, b :: l₂ => by
    simpa using map_zip_eq_zipWith f l₁ l₂

/-! ### Claims -/

/-- C1: for every Family B (Oblivion-style) entry, the effective compression state
computed at index-build time obeys the per-entry override: when bit 30 of the on-disk
size field is set (`uses_default_compression = false`) the entry's compression state is
the logical negation of the archive-wide COMPRESSED_ARCHIVE container flag, and when it
is unset the state equals the container flag directly.  Stated over the real pipeline:
a raw 16-byte file record parsed by `ob_file_record_parse` and inserted by
`ob_create_file_hashmap`; "compressed" is observed as the entry's codec not being
`Compression.None` (the header versions reachable from the Oblivion-style parser are
exactly OBLIVION, SKYRIM and SKYRIMSE). -/
theorem C1_ob_compression_override (v : Version) (flags : Nat) (bytes : List Nat)
    (hv : v = Version.OBLIVION ∨ v = Version.SKYRIM ∨ v = Version.SKYRIMSE) :
    (ob_create_file_hashmap
        { version := v, archive_flags := flags, folder_count := 1, file_count := 1,
          total_file_name_length := 2, file_flags := 0 }
        [{ name := "d", file_records := [ob_file_record_parse bytes] }] ["f"]).map
        (fun p => !(p.2.compression == Compression.None))
      = [if (leU32 (bytes.drop 8)).testBit 30 then
            !(flagsContains flags COMPRESSED_ARCHIVE)
         else flagsContains flags COMPRESSED_ARCHIVE] := by
  simp only [ob_create_file_hashmap, ob_insert_seq, ob_folder_file_pairs,
    List.flatMap_cons, List.flatMap_nil, List.map_cons, List.map_nil, List.append_nil,
    List.zip_cons_cons, List.zip_nil_right, fmFromList, List.foldl_cons, List.foldl_nil,
    fmInsert, List.any_nil, Bool.false_eq_true, if_false, List.nil_append,
    ob_entry_of, ob_file_record_parse, shift_and_bit30]
  cases hbit : (leU32 (bytes.drop 8)).testBit 30 <;>
    cases hflag : flagsContains flags COMPRESSED_ARCHIVE <;>
      rcases hv with rfl | rfl | rfl <;> simp

/-- C1 witness: a concrete record whose raw size field has bit 30 set
(byte 11 = 0x40), in a COMPRESSED_ARCHIVE Oblivion header. -/
theorem C1_ob_compression_override_witness :
    (ob_create_file_hashmap
        { version := Version.OBLIVION, archive_flags := 4, folder_count := 1,
          file_count := 1, total_file_name_length := 2, file_flags := 0 }
        [{ name := "d",
           file_records := [ob_file_record_parse
             [0, 0, 0, 0, 0, 0, 0, 0, 5, 0, 0, 64, 7, 0, 0, 0]] }] ["f"]).map
        (fun p => !(p.2.compression == Compression.None))
      = [if (leU32 ([0, 0, 0, 0, 0, 0, 0, 0, 5, 0, 0, 64, 7, 0, 0, 0].drop 8)).testBit 30
         then !(flagsContains 4 COMPRESSED_ARCHIVE)
         else flagsContains 4 COMPRESSED_ARCHIVE] :=
  C1_ob_compression_override Version.OBLIVION 4
    [0, 0, 0, 0, 0, 0, 0, 0, 5, 0, 0, 64, 7, 0, 0, 0] (Or.inl rfl)

/-- C2: the claim — extract on an entry whose effective compression flag is false
returns exactly the stored `size` bytes from `offset` — fails on the code for BA2
general entries.  On a 1-byte archive holding the byte 171 at offset 0, a general
uncompressed entry of uncompressed_size 1 makes `BA2File::extract` return 13 bytes:
a 4-byte zero scratch prefix, the stored byte, and the 8-byte little-endian
uncompressed size that `write_u64` *appended* to the Vec instead of filling the
prefix.  The claim expects exactly `[171]`. -/
theorem C2_ba2_uncompressed_extract_extra_bytes :
    ba2_extract (fun _ => none) (fun _ => none) [171]
        { header := none,
          chunks := [{ content_offset := 0, compressed_size := 0,
                       uncompressed_size := 1 }] }
      = Outcome.ok [0, 0, 0, 0, 171, 1, 0, 0, 0, 0, 0, 0, 0]
    ∧ Outcome.ok (α := List Nat) [0, 0, 0, 0, 171, 1, 0, 0, 0, 0, 0, 0, 0]
      ≠ Outcome.ok [171] :=
  ⟨rfl, by decide⟩

/-- Which keys the `get_by_extension` loop keeps (for a set other than `None`): every
key under `All`; under a `List` filter, keys whose extension matches — and every key
whose `extension()` is `None`, which falls through the `if let` and is always pushed. -/
def gbe_selects (extension_set : ExtensionSet) (k : String) : Bool :=
  if extension_set = ExtensionSet.All then true
  else
    match pathExtension k with
    | some e => extension_set.is_match e
    | none => true

theorem gbe_foldl {α : Type} (es : ExtensionSet) (m : FileMap α) (acc : List String) :
    m.foldl (gbe_step es) acc = acc ++ (m.map Prod.fst).filter (gbe_selects es) := by
  induction m generalizing acc with
  | nil => simp
  | cons p ps ih =>
    rw [List.foldl_cons, ih]
    by_cases hAll : es = ExtensionSet.All
    · simp [gbe_step, gbe_selects, hAll]
    · cases hext : pathExtension p.1 with
      | none => simp [gbe_step, gbe_selects, hAll, hext]
      | some e =>
        cases hm : es.is_match e <;>
          simp [gbe_step, gbe_selects, hAll, hext, hm]

/-- C4 counterexample: the claim — an explicit `List` filter selects exactly the
entries whose key has an extension in the list — fails on a key with no extension:
`README` has no extension, yet `get_by_extension` selects it under `List(["nif"])`. -/
theorem C4_extension_filter_counterexample :
    get_by_extension (α := Unit) [("README", ())] (ExtensionSet.List ["nif"])
      = ["README"]
    ∧ pathExtension "README" = none := by
  constructor
  · rfl
  · rfl

/-- C4 (amended): the `None` filter selects nothing (short-circuiting before touching
the map), `All` selects every key, and a `List` filter selects the keys whose extension
is in the list *plus* every key that has no extension (such keys are always selected);
only the selected keys can ever reach extraction. -/
theorem C4_extension_filter (α : Type) (m : FileMap α) (es : ExtensionSet) :
    get_by_extension m es =
      match es with
      | ExtensionSet.None => []
      | ExtensionSet.All => fmKeys m
      | ExtensionSet.List l =>
        (fmKeys m).filter (fun k =>
          match pathExtension k with
          | some e => l.contains e
          | none => true) := by
  cases es with
  | None => rfl
  | All =>
    rw [get_by_extension, if_neg (by simp), gbe_foldl]
    simp only [List.nil_append, fmKeys]
    have : ∀ k, gbe_selects ExtensionSet.All k = true := fun k => rfl
    simp [this]
  | List l =>
    rw [get_by_extension, if_neg (by simp), gbe_foldl]
    simp only [List.nil_append, fmKeys]
    congr 1

/-- C5 counterexample: on a concrete chunked (texture) entry, `BA2File::extract` does
not return an UnsupportedFeature error value — it panics (`unimplemented!`), so the
result is not an error return at all. -/
theorem C5_chunked_extract_counterexample :
    ba2_extract (fun _ => none) (fun _ => none) []
        { header := some { num_chunks := 0, chunk_header_size := 0, height := 0,
                           width := 0, num_mipmaps := 0, dxgi_format := 0 },
          chunks := [] }
      = Outcome.panic "Extraction is currently unimplemented for BA2 texture files"
    ∧ (ba2_extract (fun _ => none) (fun _ => none) []
        { header := some { num_chunks := 0, chunk_header_size := 0, height := 0,
                           width := 0, num_mipmaps := 0, dxgi_format := 0 },
          chunks := [] }).isError = false :=
  ⟨rfl, rfl⟩

/-- C5 (amended): calling extract on any chunked (texture) Family C entry never
returns a byte buffer, but the failure is an `unimplemented!` panic, not an
UnsupportedFeature error value returned to the caller. -/
theorem C5_chunked_extract_panics (zlibDecode lz4Decode : List Nat → Option (List Nat))
    (data : List Nat) (file : BA2File) (th : BA2TextureHeader)
    (h : file.header = some th) :
    ba2_extract zlibDecode lz4Decode data file
      = Outcome.panic "Extraction is currently unimplemented for BA2 texture files"
    ∧ (ba2_extract zlibDecode lz4Decode data file).isError = false := by
  unfold ba2_extract
  rw [h]
  exact ⟨rfl, rfl⟩

/-- C5 witness: the amended theorem applied at a concrete chunked entry. -/
theorem C5_chunked_extract_panics_witness :
    ba2_extract (fun _ => none) (fun _ => none) [1, 2, 3]
        { header := some { num_chunks := 1, chunk_header_size := 24, height := 2,
                           width := 2, num_mipmaps := 1, dxgi_format := 0 },
          chunks := [{ content_offset := 0, compressed_size := 0,
                       uncompressed_size := 3 }] }
      = Outcome.panic "Extraction is currently unimplemented for BA2 texture files"
    ∧ (ba2_extract (fun _ => none) (fun _ => none) [1, 2, 3]
        { header := some { num_chunks := 1, chunk_header_size := 24, height := 2,
                           width := 2, num_mipmaps := 1, dxgi_format := 0 },
          chunks := [{ content_offset := 0, compressed_size := 0,
                       uncompressed_size := 3 }] }).isError = false :=
  C5_chunked_extract_panics (fun _ => none) (fun _ => none) [1, 2, 3] _ _ rfl

/-- C6: the claim says Morrowind offsets become absolute by adding the raw-data
section base — 4 magic bytes + 8-byte header + record block + name-offset block +
name block + hash block = `hash_offset + 8·count + 12`.  The code (morrowind.rs,
`create_file_hashmap`) adds `hash_offset + 8·count + SERIALIZED_HEADER_LEN` =
`hash_offset + 8·count + 8`, omitting the 4 magic bytes.  Concretely, with
`hash_offset = 20`, `file_count = 1` and a record at relative offset 0, the builder
inserts absolute offset 36 while the documented raw-data section starts at 40. -/
theorem C6_mw_offset_base_omits_magic :
    mw_create_file_hashmap { file_count := 1, hash_offset := 20 }
        [{ size := 5, offset := 0 }] ["a"]
      = [("a", { has_name := false, compression := Compression.None,
                 size := 5, offset := 36 })]
    ∧ mw_raw_data_start_spec { file_count := 1, hash_offset := 20 } = 40 :=
  ⟨rfl, rfl⟩

/-- C3: the Family B index builder pairs the i-th file name with the i-th
(folder, record) pair of the folder-repetition sequence and inserts the key
`folder_name.join(file_name)` — stated both in general (the inserted keys are the
positional zip of the name list against `ob_folder_file_pairs`) and for the synthetic
shape of the claim: with N folders of one record each and N file names, the i-th
reconstructed key is `folder_i/file_i`. -/
theorem C3_positional_pairing (header : OBBSAHeader) (folders : List OBFolderRecord)
    (file_names : List String)
    (h1 : ∀ f ∈ folders, f.file_records.length = 1)
    (h2 : file_names.length = folders.length) :
    ((ob_insert_seq header folders file_names).map Prod.fst
        = List.zipWith (fun fname p => pathJoin p.1 fname) file_names
            (ob_folder_file_pairs folders))
    ∧ (ob_insert_seq header folders file_names).map Prod.fst
        = List.zipWith (fun folder_name fname => pathJoin folder_name fname)
            (folders.map OBFolderRecord.name) file_names := by
  constructor
  · rw [ob_insert_seq, ← map_zip_eq_zipWith]
    simp
  · induction folders generalizing file_names with
    | nil =>
      cases file_names with
      | nil => rfl
      | cons n ns => simp at h2
    | cons f fs ih =>
      cases file_names with
      | nil => simp at h2
      | cons n ns =>
        obtain ⟨r, hr⟩ := List.length_eq_one.mp (h1 f (List.mem_cons_self f fs))
        have ih' := ih ns (fun g hg => h1 g (List.mem_cons_of_mem f hg))
          (by simpa using h2)
        simp only [ob_insert_seq, ob_folder_file_pairs, hr, List.flatMap_cons,
          List.map_cons, List.map_nil, List.singleton_append, List.zip_cons_cons,
          List.zipWith_cons_cons] at ih' ⊢
        exact congrArg _ ih'

/-- C3 witness: two folders of one record each, two file names; the reconstructed keys
are `f1/a` and `f2/b` in order. -/
theorem C3_positional_pairing_witness :
    ((ob_insert_seq ⟨Version.SKYRIM, 3, 2, 2, 4, 1⟩
          [⟨"f1", [⟨true, 9, 100⟩]⟩, ⟨"f2", [⟨true, 8, 200⟩]⟩]
          ["a", "b"]).map Prod.fst
        = List.zipWith (fun fname p => pathJoin p.1 fname) ["a", "b"]
            (ob_folder_file_pairs [⟨"f1", [⟨true, 9, 100⟩]⟩, ⟨"f2", [⟨true, 8, 200⟩]⟩]))
    ∧ (ob_insert_seq ⟨Version.SKYRIM, 3, 2, 2, 4, 1⟩
          [⟨"f1", [⟨true, 9, 100⟩]⟩, ⟨"f2", [⟨true, 8, 200⟩]⟩]
          ["a", "b"]).map Prod.fst
        = List.zipWith (fun folder_name fname => pathJoin folder_name fname)
            ([⟨"f1", [⟨true, 9, 100⟩]⟩,
              ⟨"f2", [⟨true, 8, 200⟩]⟩].map OBFolderRecord.name) ["a", "b"] :=
  C3_positional_pairing ⟨Version.SKYRIM, 3, 2, 2, 4, 1⟩
    [⟨"f1", [⟨true, 9, 100⟩]⟩, ⟨"f2", [⟨true, 8, 200⟩]⟩] ["a", "b"]
    (by decide) (by decide)

theorem fmInsert_length_fresh {α : Type} (m : FileMap α) (k : String) (v : α)
    (h : m.any (fun p => p.1 == k) = false) :
    (fmInsert m k v).length = m.length + 1 := by
  simp [fmInsert, h]

theorem foldl_fmInsert_length {α : Type} :
    ∀ (l : List (String × α)) (m : FileMap α), (l.map Prod.fst).Nodup →
      (∀ k ∈ l.map Prod.fst, m.any (fun p => p.1 == k) = false) →
      (l.foldl (fun m p => fmInsert m p.1 p.2) m).length = m.length + l.length
  | [], m, _, _ => by simp
  | (k, v) :: l, m, hnd, hfresh => by
    have hk : m.any (fun p => p.1 == k) = false := hfresh k (by simp)
    have hstep : fmInsert m k v = m ++ [(k, v)] := by simp [fmInsert, hk]
    have hnd0 : (k :: l.map Prod.fst).Nodup := by
      simpa only [List.map_cons] using hnd
    have hnd' : (l.map Prod.fst).Nodup := (List.nodup_cons.mp hnd0).2
    have hknotin : k ∉ l.map Prod.fst := (List.nodup_cons.mp hnd0).1
    have hfresh' : ∀ q ∈ l.map Prod.fst,
        (m ++ [(k, v)]).any (fun p => p.1 == q) = false := by
      intro q hq
      have h1 : m.any (fun p => p.1 == q) = false := hfresh q (by simp [hq])
      have h2 : ¬(k = q) := fun heq => hknotin (heq ▸ hq)
      simp [List.any_append, h1, h2]
    have := foldl_fmInsert_length l (m ++ [(k, v)]) hnd' hfresh'
    simp only [List.foldl_cons, hstep]
    rw [this]
    simp
    omega

theorem fmFromList_length {α : Type} (l : List (String × α))
    (h : (l.map Prod.fst).Nodup) : (fmFromList l).length = l.length := by
  have := foldl_fmInsert_length l [] h (by intro k _; rfl)
  simpa [fmFromList] using this

/-- C7 counterexample: a successfully parsed Morrowind archive whose header declares 2
files but whose name block holds the same name twice — the two records collapse onto
one key, so the mapping has 1 key while the normalized header declares 2.  The byte
list is a complete well-formed file prefix: magic, header (hash_offset 28, file_count
2), two 8-byte records, the skipped 8-byte name-offset block, and the name block
"a\0a\0". -/
theorem C7_entry_count_counterexample :
    bsa_from_file "dup.bsa"
        [0, 1, 0, 0, 28, 0, 0, 0, 2, 0, 0, 0,
         1, 0, 0, 0, 0, 0, 0, 0, 1, 0, 0, 0, 1, 0, 0, 0,
         0, 0, 0, 0, 0, 0, 0, 0, 97, 0, 97, 0]
      = Outcome.ok
          ⟨"dup.bsa", ⟨Version.MORROWIND, 0, 0, 2⟩,
           [("a", ⟨false, Compression.None, 1, 53⟩)]⟩
    ∧ (1 : Nat) ≠ 2 := by
  exact ⟨rfl, by decide⟩

/-- C7 (amended): the number of keys equals the header's declared entry count provided
the positional pairing is full (as many names/pairs as the declared count) and the
reconstructed keys are pairwise distinct; duplicate or missing names silently shrink
the mapping below the declared count while the parse still succeeds.  One conjunct per
family: Morrowind (Family A), Oblivion-style (Family B), BA2 (Family C). -/
theorem C7_entry_count (mwh : MWBSAHeader) (recs : List MWFileRecord)
    (mwnames : List String)
    (obh : OBBSAHeader) (folders : List OBFolderRecord) (obnames : List String)
    (ba2names : List String) (ba2files : List BA2File) (ba2count : Nat)
    (hm1 : recs.length = mwh.file_count) (hm2 : mwnames.length = mwh.file_count)
    (hm3 : mwnames.Nodup)
    (ho1 : (ob_folder_file_pairs folders).length = obh.file_count)
    (ho2 : obnames.length = obh.file_count)
    (ho3 : ((ob_insert_seq obh folders obnames).map Prod.fst).Nodup)
    (hb1 : ba2names.length = ba2count) (hb2 : ba2files.length = ba2count)
    (hb3 : ba2names.Nodup) :
    (mw_create_file_hashmap mwh recs mwnames).length = mwh.file_count
    ∧ (ob_create_file_hashmap obh folders obnames).length = obh.file_count
    ∧ (ba2_create_file_hashmap ba2names ba2files).length = ba2count := by
  refine ⟨?_, ?_, ?_⟩
  · simp only [mw_create_file_hashmap]
    rw [fmFromList_length]
    · rw [List.length_map, List.length_zip]
      omega
    · simp only [List.map_map]
      have hsnd : (recs.zip mwnames).map Prod.snd = mwnames :=
        List.map_snd_zip recs mwnames (by omega)
      exact hsnd.symm ▸ hm3
  · rw [ob_create_file_hashmap, fmFromList_length _ ho3, ob_insert_seq]
    rw [List.length_map, List.length_zip]
    omega
  · rw [ba2_create_file_hashmap]
    rw [fmFromList_length]
    · rw [List.length_zip]
      omega
    · rw [List.map_fst_zip ba2names ba2files (by omega)]
      exact hb3

/-- C7 witness: the amended theorem at a concrete one-entry archive of each family. -/
theorem C7_entry_count_witness :
    (mw_create_file_hashmap ⟨1, 20⟩ [⟨9, 0⟩] ["a"]).length = 1
    ∧ (ob_create_file_hashmap ⟨Version.SKYRIM, 7, 1, 1, 2, 1⟩
        [⟨"d", [⟨true, 9, 40⟩]⟩] ["f"]).length = 1
    ∧ (ba2_create_file_hashmap ["x"]
        [⟨none, [⟨0, 0, 1⟩]⟩]).length = 1 :=
  C7_entry_count ⟨1, 20⟩ [⟨9, 0⟩] ["a"] ⟨Version.SKYRIM, 7, 1, 1, 2, 1⟩
    [⟨"d", [⟨true, 9, 40⟩]⟩] ["f"] ["x"] [⟨none, [⟨0, 0, 1⟩]⟩] 1
    (by decide) (by decide) (by decide) (by decide) (by decide) (by decide)
    (by decide) (by decide) (by decide)

/-- C8 counterexample: on magic "BTDX" (a recognized BA2 identifier, but not one of
`BSA::from_file`'s two arms), opening does not return a StructuralParseError to the
caller: it panics via `unimplemented!`, so the result is not an error return. -/
theorem C8_unknown_magic_counterexample :
    bsa_from_file "x.ba2" [66, 84, 68, 88] = Outcome.panic "Unknown file id parsed"
    ∧ (bsa_from_file "x.ba2" [66, 84, 68, 88]).isError = false :=
  ⟨rfl, rfl⟩

/-- C8 (amended): for every input whose leading 4 magic bytes match neither "BSA\0"
nor "\x00\x01\x00\x00", `BSA::from_file` constructs no Archive — but the failure is an
`unimplemented!` panic ("Unknown file id parsed"), not a StructuralParseError error
result returned to the caller. -/
theorem C8_unknown_magic_panics (path : String) (data : List Nat)
    (h4 : 4 ≤ data.length)
    (h1 : latin1ToString (data.take 4) ≠ "BSA\x00")
    (h2 : latin1ToString (data.take 4) ≠ "\x00\x01\x00\x00") :
    bsa_from_file path data = Outcome.panic "Unknown file id parsed"
    ∧ (bsa_from_file path data).isError = false := by
  have hlt : ¬data.length < 4 := by omega
  constructor
  · rw [bsa_from_file, if_neg hlt]
    simp only [if_neg h1, if_neg h2]
  · rw [bsa_from_file, if_neg hlt]
    simp only [if_neg h1, if_neg h2]
    rfl

/-- C8 witness: the amended theorem at the concrete magic "BTDX". -/
theorem C8_unknown_magic_panics_witness :
    bsa_from_file "w.ba2" [66, 84, 68, 88, 1, 0, 0, 0]
      = Outcome.panic "Unknown file id parsed"
    ∧ (bsa_from_file "w.ba2" [66, 84, 68, 88, 1, 0, 0, 0]).isError = false :=
  C8_unknown_magic_panics "w.ba2" [66, 84, 68, 88, 1, 0, 0, 0]
    (by decide) (by decide) (by decide)

/-- C9 counterexample: `parse_bzstring` on input length byte 2 followed by bytes
"ab" — the 2nd byte of the string is 98 ('b'), not NUL — is not rejected: it returns
"a", silently dropping the non-NUL final byte. -/
theorem C9_bzstring_counterexample :
    parse_bzstring [2, 97, 98] 0 = Outcome.ok ("a", 3)
    ∧ [2, 97, 98].getD 2 0 ≠ 0 := by
  exact ⟨rfl, by decide⟩

/-- C9 (amended): `parse_bzstring` reads a 1-byte length n and then n raw bytes, and
returns the string with its final byte stripped *unconditionally* — no assertion that
the n-th byte is NUL is performed, so a non-NUL-terminated string is silently
truncated rather than rejected (and n = 0 panics on index underflow). -/
theorem C9_bzstring_truncates (data : List Nat) (n : Nat)
    (hn : data.getD 0 0 = n) (h1 : 1 ≤ n) (hlen : 1 + n ≤ data.length) :
    parse_bzstring data 0
      = Outcome.ok (latin1ToString (((data.drop 1).take n).take (n - 1)), 1 + n) := by
  have e1 : readExact data 0 1 = some (data.take 1) := by
    rw [readExact_of_le (by omega), List.drop_zero]
  have hgetD : (data.take 1).getD 0 0 = n := by
    cases data with
    | nil => simp at hlen
    | cons a l => simpa using hn
  have e2 : readExact data (0 + 1) n = some ((data.drop 1).take n) :=
    readExact_of_le (by omega)
  rw [parse_bzstring, e1]
  simp only [hgetD, e2]
  rw [if_neg (by omega)]

/-- C9 witness: the amended theorem at the concrete input [3, 97, 98, 99]. -/
theorem C9_bzstring_truncates_witness :
    parse_bzstring [3, 97, 98, 99] 0
      = Outcome.ok
          (latin1ToString ((([3, 97, 98, 99].drop 1).take 3).take (3 - 1)), 1 + 3) :=
  C9_bzstring_truncates [3, 97, 98, 99] 3 rfl (by decide) (by decide)

/-- C10: `decompress_buffer` splits off the first 4 bytes of its input
unconditionally, so extraction of a compressed entry whose stored block is shorter
than 4 bytes panics on the out-of-bounds `split_at` — it does not return a
DecompressionError or any other error value, and never returns bytes.  Stated over
`BSA::extract_via_file` for an archive whose recomputed embedded-name flag is false
(e.g. any Oblivion-version header), with enough backing bytes that the read itself
succeeds. -/
theorem C10_short_compressed_payload_panics
    (zlibDecode lz4Decode : List Nat → Option (List Nat)) (header : BSAHeader)
    (data : List Nat) (file : BSAModFile)
    (hc : file.compressed = true) (hsize : file.size < 4)
    (hname : (flagsContains header.archive_flags EMBED_FILE_NAMES
      && !(header.version == Version.OBLIVION)) = false)
    (hread : file.offset + file.size ≤ data.length) :
    extract_via_file zlibDecode lz4Decode header data file = Outcome.panic "mid > len"
    ∧ (extract_via_file zlibDecode lz4Decode header data file).isError = false
    ∧ ∀ out, extract_via_file zlibDecode lz4Decode header data file
        ≠ Outcome.ok out := by
  have hmain : extract_via_file zlibDecode lz4Decode header data file
      = Outcome.panic "mid > len" := by
    rw [extract_via_file, readExact_of_le hread]
    simp only [hname, hc, if_true, Bool.false_eq_true, if_false]
    rw [decompress_buffer, if_pos]
    rw [length_readExact_block hread]
    exact hsize
  refine ⟨hmain, ?_, ?_⟩
  · rw [hmain]
    rfl
  · intro out
    rw [hmain]
    exact fun h => Outcome.noConfusion h

/-- C10 witness: a compressed 3-byte entry in a 3-byte Oblivion-version archive. -/
theorem C10_short_compressed_payload_panics_witness :
    extract_via_file (fun _ => none) (fun _ => none) ⟨Version.OBLIVION, 0, 0, 1⟩
        [1, 2, 3] ⟨true, 3, 0⟩ = Outcome.panic "mid > len"
    ∧ (extract_via_file (fun _ => none) (fun _ => none) ⟨Version.OBLIVION, 0, 0, 1⟩
        [1, 2, 3] ⟨true, 3, 0⟩).isError = false :=
  ⟨(C10_short_compressed_payload_panics (fun _ => none) (fun _ => none)
      ⟨Version.OBLIVION, 0, 0, 1⟩ [1, 2, 3] ⟨true, 3, 0⟩
      rfl (by decide) (by decide) (by decide)).1,
   (C10_short_compressed_payload_panics (fun _ => none) (fun _ => none)
      ⟨Version.OBLIVION, 0, 0, 1⟩ [1, 2, 3] ⟨true, 3, 0⟩
      rfl (by decide) (by decide) (by decide)).2.1⟩

end Testract
